import Mathlib

/-!
Shallow embedding of the `alx-backend-storage` repository, directory
`0x02-redis_basic` (`exercise.py` and `web.py`).

Modelling conventions:
* Redis bytes values are modelled as `String` (utf-8 decode is the identity).
* The single Redis keyspace is split into three maps (`counters` for keys
  touched only by `INCR`, `lists` for keys touched only by `RPUSH`/`LRANGE`,
  `kv` for keys touched only by `SET`/`GET`).  The program uses disjoint key
  names for the three kinds (`...:calls`, `...:inputs`/`...:outputs`, and
  uuid keys), so the split is faithful.
* `uuid.uuid4()` is modelled by a deterministic fresh-name stream: the field
  `fresh` of the state counts how many uuids were drawn so far, and the n-th
  uuid is the string `uuid-n`.  `FLUSHDB` clears the Redis data but not the
  uuid stream (the `uuid` module is not part of Redis).
* A Python method raising an exception is modelled by an `Except` result;
  state changes made before the raise persist, so a method is a function
  from arguments and state to a result (ok or error) together with the
  post-state.
-/

/-- The Redis database state, plus the uuid stream. -/
structure RedisState where
  counters : String → Nat
  lists : String → List String
  kv : String → Option String
  fresh : Nat

/-- Pointwise update of a map. -/
def mupd {α : Type} (f : String → α) (k : String) (v : α) : String → α :=
  fun x => if x = k then v else f x

@[simp] theorem mupd_same {α : Type} (f : String → α) (k : String) (v : α) :
    mupd f k v k = v := by
  simp [mupd]

theorem mupd_other {α : Type} (f : String → α) (k : String) (v : α) (x : String)
    (h : x ≠ k) : mupd f k v x = f x := by
  simp [mupd, h]

/-- Redis `INCR key`: increment the integer stored at `key` (0 when absent). -/
def incr (k : String) (s : RedisState) : RedisState :=
  { s with counters := mupd s.counters k (s.counters k + 1) }

/-- Redis `RPUSH key value`: append `value` at the tail of the list at `key`. -/
def rpush (k : String) (v : String) (s : RedisState) : RedisState :=
  { s with lists := mupd s.lists k (s.lists k ++ [v]) }

/-- Redis `SET key value`. -/
def rset (k : String) (v : String) (s : RedisState) : RedisState :=
  { s with kv := mupd s.kv k (some v) }

/-- Redis `GET key`: `none` models the Redis nil reply for an absent key. -/
def rget (k : String) (s : RedisState) : Option String :=
  s.kv k

/-- Redis `LRANGE key 0 -1`: the whole list stored at `key` (empty when absent). -/
def lrange (k : String) (s : RedisState) : List String :=
  s.lists k

/-- Redis `FLUSHDB`: delete every key.  The uuid stream is outside Redis and
survives the flush. -/
def flushdb (s : RedisState) : RedisState :=
  { counters := fun _ => 0, lists := fun _ => [], kv := fun _ => none,
    fresh := s.fresh }

/-- The string form of the n-th uuid drawn from the stream. -/
def uuidStr (n : Nat) : String :=
  "uuid-" ++ toString n

/-- A Python exception. -/
structure PyErr where
  msg : String

/-- A Python method of the `Cache` class: positional arguments `A`, keyword
arguments `K`, result `R`; the state is threaded and survives a raise. -/
def Method (A K R : Type) : Type :=
  A → K → RedisState → (Except PyErr R) × RedisState

/-- From `exercise.py`, `count_calls`: the wrapper increments the counter at key
`{qualname}:calls` in Redis and then runs the wrapped method. -/
def count_calls {A K R : Type} (qual : String) (m : Method A K R) :
    Method A K R :=
  fun a k s => m a k (incr (qual ++ ":calls") s)

/-- From `exercise.py`, `call_history`: the wrapper appends `str(args)` to the
`{qualname}:inputs` list, runs the wrapped method, and appends
`str(result)` to the `{qualname}:outputs` list.  When the method raises,
the output append is never reached. -/
def call_history {A K R : Type} (qual : String) (ra : A → String)
    (rr : R → String) (m : Method A K R) : Method A K R :=
  fun a k s =>
    let s1 := rpush (qual ++ ":inputs") (ra a) s
    match m a k s1 with
    | (Except.ok r, s2) => (Except.ok r, rpush (qual ++ ":outputs") (rr r) s2)
    | (Except.error e, s2) => (Except.error e, s2)

/-- The data values `Cache.store` accepts (the `str` and `int` members of
the Python `Union[str, bytes, int, float]`; the claims exercise only
these). -/
inductive Value where
  | str (s : String)
  | int (n : Int)
deriving DecidableEq

/-- How Redis `SET` serializes a value to bytes. -/
def encode : Value → String
  | Value.str s => s
  | Value.int n => toString n

/-- The single-quote character, written via its code point. -/
def squote : String := String.mk [Char.ofNat 39]

/-- Python `repr` of a value (`repr` of a `str` wraps it in single quotes;
`repr` of an `int` is its decimal form). -/
def pyRepr : Value → String
  | Value.str s => squote ++ s ++ squote
  | Value.int n => toString n

/-- Python `str(args)` for the one-element positional tuple `(data,)` of
`Cache.store`. -/
def strArgs1 (v : Value) : String :=
  "(" ++ pyRepr v ++ ",)"

/-- Model of `Cache.__init__`: create the client and `FLUSHDB`. -/
def Cache.init (s : RedisState) : RedisState :=
  flushdb s

/-- The body of `Cache.store` (before decoration): draw a uuid key, `SET`
the data under it, return the key.  It never raises. -/
def store_body : Method Value Unit String :=
  fun data _ s =>
    let key := uuidStr s.fresh
    let s1 := { s with fresh := s.fresh + 1 }
    (Except.ok key, rset key (encode data) s1)

/-- Model of `Cache.store` as decorated in the source:
`@count_calls` over `@call_history` over the body; `functools.wraps`
keeps the qualified name `Cache.store` for both decorators. -/
def Cache.store : Method Value Unit String :=
  count_calls "Cache.store"
    (call_history "Cache.store" strArgs1 (fun r => r) store_body)

/-- Model of `Cache.get` with a conversion function: `None` stays `None`, otherwise
the conversion is applied to the bytes. -/
def Cache.getWith {α : Type} (fn : String → α) (key : String)
    (s : RedisState) : Option α :=
  (rget key s).map fn

/-- Model of `Cache.get` without a conversion function: the raw bytes. -/
def Cache.get (key : String) (s : RedisState) : Option String :=
  rget key s

/-- Model of `Cache.get_str`: utf-8 decode, which is the identity in this byte
model. -/
def Cache.get_str (key : String) (s : RedisState) : Option String :=
  Cache.getWith (fun b => b) key s

/-- The decimal value of a digit character, `none` otherwise. -/
def digit? (c : Char) : Option Nat :=
  if 48 ≤ c.toNat ∧ c.toNat ≤ 57 then some (c.toNat - 48) else none

/-- Parse a non-empty string of decimal digits. -/
def digitsToNat : List Char → Option Nat
  | [] => none
  | cs =>
    cs.foldl (fun acc c =>
      match acc, digit? c with
      | some n, some d => some (n * 10 + d)
      | _, _ => none) (some 0)

/-- Python `int(string)` for optionally-negated decimal strings:
the decode failure `int` reports by raising is modelled as `none`. -/
def pyInt (s : String) : Option Int :=
  match s.data with
  | [] => none
  | c :: cs =>
    if c = Char.ofNat 45 then (digitsToNat cs).map (fun n => -(n : Int))
    else (digitsToNat (c :: cs)).map (fun n => (n : Int))

/-- Model of `Cache.get_int`: Python `int(bytes)`; a parse failure (which `int`
reports by raising) is collapsed into `none` here, as is an absent key. -/
def Cache.get_int (key : String) (s : RedisState) : Option Int :=
  (rget key s).bind (fun b => pyInt b)

/-- Model of `Cache.replay`: read both history lists in full, zip them, and print a
three-line block per call, numbering from 1 (`enumerate(..., 1)`).  The
returned list is the sequence of printed lines. -/
def Cache.replay (qual : String) (s : RedisState) : List String :=
  let inputs := lrange (qual ++ ":inputs") s
  let outputs := lrange (qual ++ ":outputs") s
  (List.enumFrom 1 (inputs.zip outputs)).flatMap (fun p =>
    ["Call " ++ toString p.1 ++ ":",
     "    Inputs: " ++ p.2.1,
     "    Outputs: " ++ p.2.2])

/-- Run a sequence of `Cache.store` calls, threading the state. -/
def runStores (datas : List Value) (s : RedisState) : RedisState :=
  datas.foldl (fun t d => (Cache.store d () t).2) s

/-- The uuid keys drawn by `n` consecutive `Cache.store` calls starting at
stream position `f`. -/
def uuidList (f : Nat) : Nat → List String
  | 0 => []
  | n + 1 => uuidStr f :: uuidList (f + 1) n

/-- The transcript `Cache.replay` is expected to print for a run of stores:
one three-line block per call, in call order, numbered from `k`, showing
`str(args)` of the call and the uuid key it returned (uuid stream starting
at `f`). -/
def expectedTranscript (k f : Nat) : List Value → List String
  | [] => []
  | d :: ds =>
    ("Call " ++ toString k ++ ":")
      :: ("    Inputs: " ++ strArgs1 d)
      :: ("    Outputs: " ++ uuidStr f)
      :: expectedTranscript (k + 1) (f + 1) ds

/-- The operations the library offers on a `Cache` (after `__init__`).
`get`, `get_str`, `get_int` and `replay` only read from Redis; `flush`
is an explicit `FLUSHDB` of the store. -/
inductive CacheOp where
  | store (d : Value)
  | get (k : String)
  | getStr (k : String)
  | getInt (k : String)
  | replay (q : String)
  | flush
deriving DecidableEq

/-- The state transition of one library operation.  The read-only
operations (`GET`, `LRANGE` and the prints of `replay`) leave the Redis
state unchanged. -/
def applyOp : CacheOp → RedisState → RedisState
  | CacheOp.store d, s => (Cache.store d () s).2
  | CacheOp.get _, s => s
  | CacheOp.getStr _, s => s
  | CacheOp.getInt _, s => s
  | CacheOp.replay _, s => s
  | CacheOp.flush, s => flushdb s

/-- Run a sequence of library operations. -/
def applyOps (ops : List CacheOp) (s : RedisState) : RedisState :=
  ops.foldl (fun t op => applyOp op t) s

/-!
### `web.py`

The source file does not parse as Python (the `else:` of `get_page` is
dedented to column 0, and the docstring of `cache_result` is mis-indented);
the embedding reads it with the evidently intended indentation: the `else`
belongs to the `if url in cache` check.  `cachetools.TTLCache` is modelled
with explicit timestamps (`now` is passed as a parameter); the `maxsize`
eviction never triggers in the scenarios considered (at most two keys) and
is not modelled.  `requests.get(url).text` is modelled by a pure oracle
`fetch : String → String` together with a log of the urls fetched during a
call, which counts the invocations of the wrapped fetching function.
-/

/-- A value stored in the TTL cache: the page text under the url key, an
access count under the `count:` key (Python lets the two coexist). -/
inductive CVal where
  | str (s : String)
  | int (n : Nat)
deriving DecidableEq

/-- Model of `cachetools.TTLCache`: entries carry their expiry time. -/
structure TTLCache where
  ttl : Nat
  entries : List (String × CVal × Nat)
deriving DecidableEq

/-- A fresh, empty TTL cache. -/
def TTLCache.empty (ttl : Nat) : TTLCache :=
  { ttl := ttl, entries := [] }

/-- Look a key up at time `now`; an expired entry counts as absent. -/
def TTLCache.lookup (c : TTLCache) (k : String) (now : Nat) : Option CVal :=
  match c.entries.find? (fun e => e.1 == k) with
  | some (_, v, exp) => if now < exp then some v else none
  | none => none

/-- Python `key in cache` at time `now`. -/
def TTLCache.hasKey (c : TTLCache) (k : String) (now : Nat) : Bool :=
  (c.lookup k now).isSome

/-- Assignment `cache[key] = value` at time `now`: expiry is `now + ttl`; an older
entry for the key is replaced. -/
def TTLCache.insert (c : TTLCache) (k : String) (v : CVal) (now : Nat) :
    TTLCache :=
  { c with entries := (k, v, now + c.ttl) :: c.entries.filter (fun e => e.1 != k) }

/-- Python `cache.get(key, 0)` read as an access count. -/
def TTLCache.countAt (c : TTLCache) (k : String) (now : Nat) : Nat :=
  match c.lookup k now with
  | some (CVal.int n) => n
  | _ => 0

/-- What one `get_page` call produces: the returned text, the urls handed
to `requests.get` during the call, and the function-local cache at return
time (Python discards this cache when the call returns; it is kept here
only so its contents can be observed). -/
structure GetPageResult where
  text : String
  fetched : List String
  localCache : TTLCache
deriving DecidableEq

/-- From `web.py`, `get_page`: a `TTLCache` with `ttl=10` is constructed anew
inside the function on every call, the url is looked up in that (empty)
cache, and on the miss path the page is fetched, cached, and the access
count set to 1.  The hit branch is transcribed from the source but is
unreachable: the freshly built cache contains nothing. -/
def get_page (fetch : String → String) (url : String) (now : Nat) :
    GetPageResult :=
  let cache := TTLCache.empty 10
  if cache.hasKey url now then
    let result := (cache.lookup url now).getD (CVal.str "")
    let cache := cache.insert url result now
    let cntKey := "count:" ++ url
    let cache := cache.insert cntKey (CVal.int (cache.countAt cntKey now + 1)) now
    { text := match result with | CVal.str t => t | CVal.int n => toString n,
      fetched := [], localCache := cache }
  else
    let result := fetch url
    let cache := cache.insert url (CVal.str result) now
    let cache := cache.insert ("count:" ++ url) (CVal.int 1) now
    { text := result, fetched := [url], localCache := cache }

/-- The urls handed to `requests.get` over a sequence of `get_page` calls
(given as url/time pairs).  `get_page` keeps no state between calls. -/
def getPageFetches (fetch : String → String) (calls : List (String × Nat)) :
    List String :=
  calls.flatMap (fun c => (get_page fetch c.1 c.2).fetched)

/-- Python `str(args) + str(kwargs)` for the call `f(url)` with no keyword
arguments, the cache key used by `cache_result.decorator.wrapper`. -/
def decoratorKey (url : String) : String :=
  "(" ++ squote ++ url ++ squote ++ ",)" ++ "\x7b\x7d"

/-- From `web.py`, `cache_result(ttl).decorator(function).wrapper`: this cache
lives in the decorator closure, so it persists across calls and is
threaded here as state.  On a hit the cached value is returned without
fetching; on a miss the page is fetched and stored. -/
def cache_result_call (fetch : String → String) (c : TTLCache) (url : String)
    (now : Nat) : String × TTLCache × List String :=
  let key := decoratorKey url
  if c.hasKey key now then
    (match (c.lookup key now).getD (CVal.str "") with
      | CVal.str t => t | CVal.int n => toString n, c, [])
  else
    let result := fetch url
    (result, c.insert key (CVal.str result) now, [url])

/-- Run a sequence of `get_page_with_decorator` calls, threading the
closure cache; returns the final cache and the urls fetched. -/
def runDecorator (fetch : String → String) (calls : List (String × Nat))
    (c : TTLCache) : TTLCache × List String :=
  match calls with
  | [] => (c, [])
  | (url, now) :: rest =>
    let r := cache_result_call fetch c url now
    let t := runDecorator fetch rest r.2.1
    (t.1, r.2.2 ++ t.2)

/-!
### Step lemmas about one decorated `Cache.store` call
-/

theorem store_unfold (d : Value) (s : RedisState) :
    Cache.store d () s =
      (Except.ok (uuidStr s.fresh),
        rpush "Cache.store:outputs" (uuidStr s.fresh)
          (rset (uuidStr s.fresh) (encode d)
            { rpush "Cache.store:inputs" (strArgs1 d)
                (incr "Cache.store:calls" s) with fresh := s.fresh + 1 })) :=
  rfl

theorem store_fst (d : Value) (s : RedisState) :
    (Cache.store d () s).1 = Except.ok (uuidStr s.fresh) :=
  rfl

theorem store_counters_calls (d : Value) (s : RedisState) :
    (Cache.store d () s).2.counters "Cache.store:calls" =
      s.counters "Cache.store:calls" + 1 := by
  simp [store_unfold, rpush, rset, incr, mupd]

theorem store_lists_inputs (d : Value) (s : RedisState) :
    (Cache.store d () s).2.lists "Cache.store:inputs" =
      s.lists "Cache.store:inputs" ++ [strArgs1 d] := by
  simp [store_unfold, rpush, rset, incr, mupd]

theorem store_lists_outputs (d : Value) (s : RedisState) :
    (Cache.store d () s).2.lists "Cache.store:outputs" =
      s.lists "Cache.store:outputs" ++ [uuidStr s.fresh] := by
  simp [store_unfold, rpush, rset, incr, mupd]

theorem store_fresh (d : Value) (s : RedisState) :
    (Cache.store d () s).2.fresh = s.fresh + 1 := by
  simp [store_unfold, rpush, rset, incr]

theorem store_kv_key (d : Value) (s : RedisState) :
    (Cache.store d () s).2.kv (uuidStr s.fresh) = some (encode d) := by
  simp [store_unfold, rpush, rset, incr, mupd]

/-!
### Lemmas about a run of `Cache.store` calls
-/

theorem runStores_cons (d : Value) (ds : List Value) (s : RedisState) :
    runStores (d :: ds) s = runStores ds (Cache.store d () s).2 := by
  simp [runStores]

theorem runStores_counters (datas : List Value) :
    ∀ s : RedisState,
      (runStores datas s).counters "Cache.store:calls" =
        s.counters "Cache.store:calls" + datas.length := by
  induction datas with
  | nil => intro s; simp [runStores]
  | cons d ds ih =>
    intro s
    rw [runStores_cons, ih, store_counters_calls]
    simp [Nat.add_assoc, Nat.add_comm 1 ds.length]

theorem runStores_fresh (datas : List Value) :
    ∀ s : RedisState, (runStores datas s).fresh = s.fresh + datas.length := by
  induction datas with
  | nil => intro s; simp [runStores]
  | cons d ds ih =>
    intro s
    rw [runStores_cons, ih, store_fresh]
    simp [Nat.add_assoc, Nat.add_comm 1 ds.length]

theorem runStores_lists_inputs (datas : List Value) :
    ∀ s : RedisState,
      (runStores datas s).lists "Cache.store:inputs" =
        s.lists "Cache.store:inputs" ++ datas.map strArgs1 := by
  induction datas with
  | nil => intro s; simp [runStores]
  | cons d ds ih =>
    intro s
    rw [runStores_cons, ih, store_lists_inputs]
    simp

theorem runStores_lists_outputs (datas : List Value) :
    ∀ s : RedisState,
      (runStores datas s).lists "Cache.store:outputs" =
        s.lists "Cache.store:outputs" ++ uuidList s.fresh datas.length := by
  induction datas with
  | nil => intro s; simp [runStores, uuidList]
  | cons d ds ih =>
    intro s
    rw [runStores_cons, ih, store_lists_outputs, store_fresh]
    simp [uuidList]

theorem enumFrom_zip_flatMap (datas : List Value) :
    ∀ k f : Nat,
      (List.enumFrom k
          ((datas.map strArgs1).zip (uuidList f datas.length))).flatMap
        (fun p =>
          ["Call " ++ toString p.1 ++ ":",
           "    Inputs: " ++ p.2.1,
           "    Outputs: " ++ p.2.2]) =
      expectedTranscript k f datas := by
  induction datas with
  | nil => intro k f; simp [uuidList, expectedTranscript]
  | cons d ds ih =>
    intro k f
    simp only [List.map_cons, List.length_cons, uuidList, List.zip_cons_cons,
      List.enumFrom_cons, List.flatMap_cons, expectedTranscript, ih]
    rfl

/-- C3: after a fresh `Cache` is constructed (flushing the store), a run of
`N` calls to the instrumented `Cache.store` leaves the counter at
`Cache.store:calls` equal to exactly `N`; since the run is arbitrary, the
counter equals the call number after every intermediate call as well. -/
theorem count_calls_counter_equals_calls (datas : List Value)
    (s0 : RedisState) :
    (runStores datas (Cache.init s0)).counters "Cache.store:calls" =
      datas.length := by
  rw [Cache.init, runStores_counters]
  simp [flushdb]

/-- C6: replaying `Cache.store` after a run of stores from a fresh `Cache`
prints exactly one three-line block per call, in call order, numbered from
1, each block showing `str(args)` of that call and the key it returned. -/
theorem replay_transcript_of_run (datas : List Value) (s0 : RedisState) :
    Cache.replay "Cache.store" (runStores datas (Cache.init s0)) =
      expectedTranscript 1 s0.fresh datas := by
  have h0i : (Cache.init s0).lists "Cache.store:inputs" = [] := rfl
  have h0o : (Cache.init s0).lists "Cache.store:outputs" = [] := rfl
  have h0f : (Cache.init s0).fresh = s0.fresh := rfl
  have hin : (runStores datas (Cache.init s0)).lists "Cache.store:inputs" =
      List.map strArgs1 datas := by
    rw [runStores_lists_inputs, h0i, List.nil_append]
  have hout : (runStores datas (Cache.init s0)).lists "Cache.store:outputs" =
      uuidList s0.fresh datas.length := by
    rw [runStores_lists_outputs, h0o, h0f, List.nil_append]
  have hki : ("Cache.store" ++ ":inputs" : String) = "Cache.store:inputs" := rfl
  have hko : ("Cache.store" ++ ":outputs" : String) = "Cache.store:outputs" := rfl
  rw [Cache.replay]
  simp only [lrange, hki, hko, hin, hout]
  exact enumFrom_zip_flatMap datas 1 s0.fresh

/-- C8: when no history has been recorded for an operation (its inputs
list is absent/empty), `replay` prints nothing and is a total function
(no failure). -/
theorem replay_empty_on_no_history (q : String) (s : RedisState)
    (h : s.lists (q ++ ":inputs") = []) :
    Cache.replay q s = [] := by
  simp [Cache.replay, lrange, h]

/-- Witness for C8 at a concrete empty state. -/
theorem replay_empty_on_no_history_witness :
    (({ counters := fun _ => 0, lists := fun _ => [], kv := fun _ => none,
        fresh := 0 } : RedisState).lists ("Cache.store" ++ ":inputs") = [])
      ∧ Cache.replay "Cache.store"
          { counters := fun _ => 0, lists := fun _ => [], kv := fun _ => none,
            fresh := 0 } = [] :=
  ⟨rfl, replay_empty_on_no_history "Cache.store" _ rfl⟩

/-- C7: storing the string `"hello"` on a fresh `Cache` returns a key
under which `get_str` reads back `"hello"`, and storing the integer `42`
returns a key under which `get_int` reads back `42`. -/
theorem store_typed_get_roundtrip (s0 : RedisState) :
    ((Cache.store (Value.str "hello") () (Cache.init s0)).1 =
        Except.ok (uuidStr s0.fresh)
      ∧ Cache.get_str (uuidStr s0.fresh)
          (Cache.store (Value.str "hello") () (Cache.init s0)).2 =
        some "hello")
    ∧ ((Cache.store (Value.int 42) () (Cache.init s0)).1 =
        Except.ok (uuidStr s0.fresh)
      ∧ Cache.get_int (uuidStr s0.fresh)
          (Cache.store (Value.int 42) () (Cache.init s0)).2 =
        some 42) := by
  have hf : uuidStr s0.fresh = uuidStr (Cache.init s0).fresh := rfl
  refine ⟨⟨store_fst _ _, ?_⟩, ⟨store_fst _ _, ?_⟩⟩
  · rw [Cache.get_str, Cache.getWith, rget, hf, store_kv_key]
    rfl
  · rw [Cache.get_int, rget, hf, store_kv_key]
    decide

/-- An entirely empty Redis state (what a freshly flushed store looks
like). -/
def emptyState : RedisState :=
  { counters := fun _ => 0, lists := fun _ => [], kv := fun _ => none,
    fresh := 0 }

/-- An underlying operation that always raises (what the claims about
failing operations quantify over). -/
def failing_store : Method Value Unit String :=
  fun _ _ s => (Except.error { msg := "boom" }, s)

/-- An underlying operation that always succeeds and leaves the state
unchanged. -/
def okMethod : Method Value Unit String :=
  fun _ _ s => (Except.ok "r", s)

/-- An underlying operation that returns its keyword argument (to observe
that keyword arguments are forwarded). -/
def kwMethod : Method Value Nat String :=
  fun _ kw s => (Except.ok (toString kw), s)

/-- The two history keys of an operation are distinct, whatever its
qualified name. -/
theorem outKey_ne_inKey (q : String) : q ++ ":outputs" ≠ q ++ ":inputs" := by
  intro h
  have hd := congrArg String.data h
  simp only [String.data_append] at hd
  have h2 := List.append_cancel_left hd
  revert h2
  decide

theorem inKey_ne_outKey (q : String) : q ++ ":inputs" ≠ q ++ ":outputs" :=
  (outKey_ne_inKey q).symm

/-- C2 counterexample: wrap an always-raising operation with
`call_history` and call it once on an empty store: the inputs list gets
the record of the call but the outputs list stays empty, so the two
lengths differ — the claimed invariant does not survive a call in which
the underlying operation fails. -/
theorem call_history_failing_call_breaks_lockstep :
    ((call_history "m" strArgs1 (fun r => r) failing_store (Value.str "x") ()
          emptyState).2.lists "m:inputs" = [strArgs1 (Value.str "x")])
    ∧ ((call_history "m" strArgs1 (fun r => r) failing_store (Value.str "x") ()
          emptyState).2.lists "m:outputs" = [])
    ∧ ¬((call_history "m" strArgs1 (fun r => r) failing_store (Value.str "x") ()
            emptyState).2.lists "m:inputs").length =
        ((call_history "m" strArgs1 (fun r => r) failing_store (Value.str "x") ()
            emptyState).2.lists "m:outputs").length := by
  refine ⟨rfl, rfl, ?_⟩
  decide

/-- C2 amended: for an underlying operation that does not itself touch the
history lists, a call that returns normally appends exactly one entry to
each list — entry `i` of inputs corresponds to entry `i` of outputs — so
the lengths stay equal after every successful call; a call in which the
underlying operation raises appends the input record only, leaving the
inputs list one entry longer than the outputs list. -/
theorem call_history_lockstep_amended {A K R : Type} (q : String)
    (ra : A → String) (rr : R → String) (m : Method A K R) (a : A) (k : K)
    (s : RedisState)
    (hm : ∀ (b : A) (kw : K) (t : RedisState), ((m b kw t).2).lists = t.lists) :
    (∀ r : R, ((call_history q ra rr m) a k s).1 = Except.ok r →
        ((call_history q ra rr m) a k s).2.lists (q ++ ":inputs") =
            s.lists (q ++ ":inputs") ++ [ra a]
          ∧ ((call_history q ra rr m) a k s).2.lists (q ++ ":outputs") =
              s.lists (q ++ ":outputs") ++ [rr r])
    ∧ (∀ e : PyErr, ((call_history q ra rr m) a k s).1 = Except.error e →
        ((call_history q ra rr m) a k s).2.lists (q ++ ":inputs") =
            s.lists (q ++ ":inputs") ++ [ra a]
          ∧ ((call_history q ra rr m) a k s).2.lists (q ++ ":outputs") =
              s.lists (q ++ ":outputs")) := by
  have hs2 := hm a k (rpush (q ++ ":inputs") (ra a) s)
  rcases hres : m a k (rpush (q ++ ":inputs") (ra a) s) with ⟨res, s2⟩
  rw [hres] at hs2
  have hw : (call_history q ra rr m) a k s =
      (match (res, s2) with
        | (Except.ok r, s2) => (Except.ok r, rpush (q ++ ":outputs") (rr r) s2)
        | (Except.error e, s2) => (Except.error e, s2)) := by
    show (match m a k (rpush (q ++ ":inputs") (ra a) s) with
        | (Except.ok r, s2) => (Except.ok r, rpush (q ++ ":outputs") (rr r) s2)
        | (Except.error e, s2) => (Except.error e, s2)) =
      (match (res, s2) with
        | (Except.ok r, s2) => (Except.ok r, rpush (q ++ ":outputs") (rr r) s2)
        | (Except.error e, s2) => (Except.error e, s2))
    rw [hres]
  cases res with
  | ok r =>
    simp only [hw] at *
    constructor
    · intro r2 hr2
      have hrr : r = r2 := by
        simpa using hr2
      subst hrr
      constructor
      · show (rpush (q ++ ":outputs") (rr r) s2).lists (q ++ ":inputs") = _
        rw [rpush]
        show mupd s2.lists (q ++ ":outputs") _ (q ++ ":inputs") = _
        rw [mupd_other _ _ _ _ (inKey_ne_outKey q), hs2, rpush]
        show mupd s.lists (q ++ ":inputs") _ (q ++ ":inputs") = _
        rw [mupd_same]
      · show (rpush (q ++ ":outputs") (rr r) s2).lists (q ++ ":outputs") = _
        rw [rpush]
        show mupd s2.lists (q ++ ":outputs") _ (q ++ ":outputs") = _
        rw [mupd_same, hs2, rpush]
        show mupd s.lists (q ++ ":inputs") _ (q ++ ":outputs") ++ _ = _
        rw [mupd_other _ _ _ _ (outKey_ne_inKey q)]
    · intro e he
      simp at he
  | error e =>
    simp only [hw] at *
    constructor
    · intro r2 hr2
      simp at hr2
    · intro e2 he2
      constructor
      · rw [hs2, rpush]
        show mupd s.lists (q ++ ":inputs") _ (q ++ ":inputs") = _
        rw [mupd_same]
      · rw [hs2, rpush]
        show mupd s.lists (q ++ ":inputs") _ (q ++ ":outputs") = _
        rw [mupd_other _ _ _ _ (outKey_ne_inKey q)]

/-- Witness for the amended C2: one successful call appends one entry to
each history list. -/
theorem call_history_lockstep_amended_witness :
    (∀ (b : Value) (kw : Unit) (t : RedisState),
        ((okMethod b kw t).2).lists = t.lists)
    ∧ ((call_history "m" strArgs1 (fun r => r) okMethod (Value.str "x") ()
          emptyState).2.lists ("m" ++ ":inputs") =
            emptyState.lists ("m" ++ ":inputs") ++ [strArgs1 (Value.str "x")]
        ∧ (call_history "m" strArgs1 (fun r => r) okMethod (Value.str "x") ()
            emptyState).2.lists ("m" ++ ":outputs") =
              emptyState.lists ("m" ++ ":outputs") ++ ["r"]) :=
  ⟨fun _ _ _ => rfl,
    (call_history_lockstep_amended "m" strArgs1 (fun r => r) okMethod
        (Value.str "x") () emptyState (fun _ _ _ => rfl)).1 "r" rfl⟩

/-- C5: the `count_calls` wrapper hands the wrapped operation the state in
which the counter has already been incremented (the increment happens
first), and for an operation that does not itself touch the counter the
post-call counter is the pre-call counter plus one whatever the call
result — in particular also when the operation raises. -/
theorem count_calls_increments_before_and_unconditionally {A K R : Type}
    (q : String) (m : Method A K R) (a : A) (k : K) (s : RedisState)
    (hm : ∀ (b : A) (kw : K) (t : RedisState),
        ((m b kw t).2).counters (q ++ ":calls") = t.counters (q ++ ":calls")) :
    ((count_calls q m) a k s).2.counters (q ++ ":calls") =
        s.counters (q ++ ":calls") + 1
      ∧ (count_calls q m) a k s = m a k (incr (q ++ ":calls") s) := by
  refine ⟨?_, rfl⟩
  show ((m a k (incr (q ++ ":calls") s)).2).counters (q ++ ":calls") = _
  rw [hm, incr]
  show mupd s.counters (q ++ ":calls") _ (q ++ ":calls") = _
  rw [mupd_same]

/-- Witness for C5 at an operation that always raises: the counter is
still incremented. -/
theorem count_calls_increments_witness :
    (∀ (b : Value) (kw : Unit) (t : RedisState),
        ((failing_store b kw t).2).counters ("m" ++ ":calls") =
          t.counters ("m" ++ ":calls"))
    ∧ ((count_calls "m" failing_store) (Value.str "x") () emptyState).2.counters
          ("m" ++ ":calls") = emptyState.counters ("m" ++ ":calls") + 1
    ∧ (count_calls "m" failing_store) (Value.str "x") () emptyState =
        failing_store (Value.str "x") () (incr ("m" ++ ":calls") emptyState) :=
  ⟨fun _ _ _ => rfl,
    (count_calls_increments_before_and_unconditionally "m" failing_store
        (Value.str "x") () emptyState (fun _ _ _ => rfl)).1,
    (count_calls_increments_before_and_unconditionally "m" failing_store
        (Value.str "x") () emptyState (fun _ _ _ => rfl)).2⟩

theorem store_counters_le (d : Value) (s : RedisState) (k : String) :
    s.counters k ≤ (Cache.store d () s).2.counters k := by
  rw [store_unfold]
  show s.counters k ≤ mupd s.counters "Cache.store:calls" _ k
  rw [mupd]
  split
  · next h =>
    subst h
    exact Nat.le_succ _
  · exact Nat.le.refl

theorem applyOp_counters_le (op : CacheOp) (s : RedisState) (k : String)
    (hop : op ≠ CacheOp.flush) :
    s.counters k ≤ (applyOp op s).counters k := by
  cases op with
  | store d => exact store_counters_le d s k
  | get _ => exact Nat.le.refl
  | getStr _ => exact Nat.le.refl
  | getInt _ => exact Nat.le.refl
  | replay _ => exact Nat.le.refl
  | flush => exact absurd rfl hop

theorem applyOps_counters_le (ops : List CacheOp) :
    ∀ s : RedisState, CacheOp.flush ∉ ops →
      s.counters "Cache.store:calls" ≤
        (applyOps ops s).counters "Cache.store:calls" := by
  induction ops with
  | nil => intro s _; exact Nat.le.refl
  | cons op rest ih =>
    intro s h
    have hop : op ≠ CacheOp.flush := fun he => h (he ▸ List.mem_cons_self op rest)
    have hrest : CacheOp.flush ∉ rest := fun he => h (List.mem_cons_of_mem op he)
    calc s.counters "Cache.store:calls"
        ≤ (applyOp op s).counters "Cache.store:calls" :=
          applyOp_counters_le op s _ hop
      _ ≤ (applyOps rest (applyOp op s)).counters "Cache.store:calls" :=
          ih (applyOp op s) hrest
      _ = (applyOps (op :: rest) s).counters "Cache.store:calls" := rfl

/-- C9: over any sequence of library operations that contains no explicit
flush, the call counter never decreases; the explicit flush resets it to
zero (and is the only operation that does). -/
theorem counter_monotone_except_flush (ops : List CacheOp) (s : RedisState)
    (h : CacheOp.flush ∉ ops) :
    s.counters "Cache.store:calls" ≤
        (applyOps ops s).counters "Cache.store:calls"
      ∧ (applyOp CacheOp.flush s).counters "Cache.store:calls" = 0 :=
  ⟨applyOps_counters_le ops s h, rfl⟩

/-- Witness for C9 on a store followed by a read. -/
theorem counter_monotone_except_flush_witness :
    (CacheOp.flush ∉ [CacheOp.store (Value.str "a"), CacheOp.get "k"])
    ∧ (emptyState.counters "Cache.store:calls" ≤
          (applyOps [CacheOp.store (Value.str "a"), CacheOp.get "k"]
              emptyState).counters "Cache.store:calls"
        ∧ (applyOp CacheOp.flush emptyState).counters "Cache.store:calls" = 0) :=
  ⟨by decide,
    counter_monotone_except_flush [CacheOp.store (Value.str "a"), CacheOp.get "k"]
      emptyState (by decide)⟩

/-- C10: for an operation that does not itself touch the history lists,
the `call_history` wrapper records exactly `str(args)` — the positional
arguments — in the inputs list, for every keyword-argument value alike
(keyword arguments are omitted from the record), while the keyword
arguments are still forwarded to the underlying operation, whose result
the wrapped call returns. -/
theorem call_history_records_only_positional {A K R : Type} (q : String)
    (ra : A → String) (rr : R → String) (m : Method A K R) (a : A) (k : K)
    (s : RedisState)
    (hm : ∀ (b : A) (kw : K) (t : RedisState), ((m b kw t).2).lists = t.lists) :
    ((call_history q ra rr m) a k s).2.lists (q ++ ":inputs") =
        s.lists (q ++ ":inputs") ++ [ra a]
      ∧ ((call_history q ra rr m) a k s).1 =
          (m a k (rpush (q ++ ":inputs") (ra a) s)).1 := by
  have hs2 := hm a k (rpush (q ++ ":inputs") (ra a) s)
  rcases hres : m a k (rpush (q ++ ":inputs") (ra a) s) with ⟨res, s2⟩
  rw [hres] at hs2
  have hw : (call_history q ra rr m) a k s =
      (match (res, s2) with
        | (Except.ok r, s2) => (Except.ok r, rpush (q ++ ":outputs") (rr r) s2)
        | (Except.error e, s2) => (Except.error e, s2)) := by
    show (match m a k (rpush (q ++ ":inputs") (ra a) s) with
        | (Except.ok r, s2) => (Except.ok r, rpush (q ++ ":outputs") (rr r) s2)
        | (Except.error e, s2) => (Except.error e, s2)) =
      (match (res, s2) with
        | (Except.ok r, s2) => (Except.ok r, rpush (q ++ ":outputs") (rr r) s2)
        | (Except.error e, s2) => (Except.error e, s2))
    rw [hres]
  cases res with
  | ok r =>
    rw [hw]
    constructor
    · show (rpush (q ++ ":outputs") (rr r) s2).lists (q ++ ":inputs") = _
      rw [rpush]
      show mupd s2.lists (q ++ ":outputs") _ (q ++ ":inputs") = _
      rw [mupd_other _ _ _ _ (inKey_ne_outKey q), hs2, rpush]
      show mupd s.lists (q ++ ":inputs") _ (q ++ ":inputs") = _
      rw [mupd_same]
    · rfl
  | error e =>
    rw [hw]
    constructor
    · show s2.lists (q ++ ":inputs") = _
      rw [hs2, rpush]
      show mupd s.lists (q ++ ":inputs") _ (q ++ ":inputs") = _
      rw [mupd_same]
    · rfl

/-- Witness for C10 at an operation that returns its keyword argument
`7`: the history records only the positional arguments, yet the call
returns `"7"`. -/
theorem call_history_records_only_positional_witness :
    (∀ (b : Value) (kw : Nat) (t : RedisState),
        ((kwMethod b kw t).2).lists = t.lists)
    ∧ ((call_history "m" strArgs1 (fun r => r) kwMethod (Value.str "x") 7
          emptyState).2.lists ("m" ++ ":inputs") =
            emptyState.lists ("m" ++ ":inputs") ++ [strArgs1 (Value.str "x")]
        ∧ (call_history "m" strArgs1 (fun r => r) kwMethod (Value.str "x") 7
            emptyState).1 =
          (kwMethod (Value.str "x") 7
              (rpush ("m" ++ ":inputs") (strArgs1 (Value.str "x"))
                emptyState)).1) :=
  ⟨fun _ _ _ => rfl,
    call_history_records_only_positional "m" strArgs1 (fun r => r) kwMethod
      (Value.str "x") 7 emptyState (fun _ _ _ => rfl)⟩

/-- C1: `get_page` rebuilds its `TTLCache` inside the function body on
every call, so two calls for the same url made at the same instant — both
inside any TTL window — each invoke the wrapped fetching function: the
fetch log has two entries, not one.  This contradicts the docstring of the function itself
 ("caches the result for 10 seconds"). -/
theorem get_page_refetches_within_ttl :
    getPageFetches (fun _ => "<html>") [("a", 0), ("a", 0)] = ["a", "a"]
      ∧ ¬(getPageFetches (fun _ => "<html>") [("a", 0), ("a", 0)]).length = 1 := by
  constructor
  · rfl
  · decide

/-- C4: three `get_page` calls for `"a"` with TTL 10, all within one
second, invoke the wrapped fetching function three times (not once), and
the only access counter that ever exists is the one inside the call-local
cache, which each call sets to 1 and then discards; no counter reaches 3. -/
theorem get_page_three_calls_three_fetches :
    (getPageFetches (fun _ => "<html>") [("a", 0), ("a", 0), ("a", 1)]).length = 3
      ∧ (get_page (fun _ => "<html>") "a" 0).localCache.countAt "count:a" 0 = 1
      ∧ (get_page (fun _ => "<html>") "a" 1).localCache.countAt "count:a" 1 = 1 := by
  refine ⟨by decide, by decide, by decide⟩

/-- The decorator variant, by contrast, does keep its cache across calls:
a second call for the same url within the TTL is served from the cache
and fetches nothing. -/
theorem cache_result_caches_within_ttl :
    (runDecorator (fun _ => "<html>") [("a", 0), ("a", 1)]
        (TTLCache.empty 10)).2 = ["a"] := by
  decide
